import Mathlib

/-!
Verification of the mux eval runner (src/runners/rust/src/main.rs) against its
natural-language specification.  The Rust code is shallowly embedded: strings
are modelled as Lean strings / lists of characters, the external mux library
and the LLM clients are modelled by the interfaces the runner consumes, JSON
numbers are modelled as exact rationals (every number occurring in the claims
is a small integer, on which f64 arithmetic is exact), and effectful handler
calls are modelled as explicit state transformers.
-/

/-! ## String model: the Rust `str` operations used by the runner -/

/-- `leadsWith pat s` is Rust `s.starts_with(pat)` on character lists. -/
def leadsWith : List Char → List Char → Bool
  | [], _ => true
  | _ :: _, [] => false
  | p :: ps, c :: cs => p == c && leadsWith ps cs

/-- `occursIn pat s` is Rust `s.contains(pat)` (substring containment). -/
def occursIn (pat : List Char) : List Char → Bool
  | [] => pat.isEmpty
  | c :: cs => leadsWith pat (c :: cs) || occursIn pat cs

/-- Split a character list at every occurrence of the separator.  Auxiliary
accumulator-based worker; the accumulator holds the current piece reversed. -/
def splitOnCharAux (sep : Char) (acc : List Char) : List Char → List (List Char)
  | [] => [acc.reverse]
  | c :: rest =>
    if c == sep then acc.reverse :: splitOnCharAux sep [] rest
    else splitOnCharAux sep (c :: acc) rest

/-- Split a character list at every occurrence of the separator. -/
def splitOnChar (sep : Char) (s : List Char) : List (List Char) :=
  splitOnCharAux sep [] s

/-- Remove one trailing carriage return, as Rust `lines()` does on each line
that was terminated by a newline. -/
def dropTrailingCR (l : List Char) : List Char :=
  if l.getLast? == some '\r' then l.dropLast else l

/-- Rust `str::lines()`: split at every newline; every piece that was
terminated by a newline loses one trailing carriage return; a final empty
piece (from a trailing newline) is dropped. -/
def rustLines (s : List Char) : List (List Char) :=
  let parts := splitOnChar '\n' s
  let front := (parts.dropLast).map dropTrailingCR
  match parts.getLast? with
  | some [] => front
  | some lastPiece => front ++ [lastPiece]
  | none => front

/-- Rust `str::trim()`, restricted to the ASCII whitespace characters
(space, tab, carriage return, newline); every string the runner trims is
ASCII. -/
def rustTrim (l : List Char) : List Char :=
  ((l.dropWhile Char.isWhitespace).reverse.dropWhile Char.isWhitespace).reverse

/-- Fuel-driven worker for `trim_start_matches`: repeatedly remove the
pattern from the front while it matches. -/
def stripLeadingFuel (pat : List Char) : Nat → List Char → List Char
  | 0, s => s
  | Nat.succ fuel, s =>
    if !pat.isEmpty && leadsWith pat s then
      stripLeadingFuel pat fuel (s.drop pat.length)
    else s

/-- Rust `str::trim_start_matches(pat)`: repeatedly remove the pattern from
the front while it matches.  Each removal shortens the list by at least one
character, so fuel `s.length + 1` always suffices. -/
def trim_start_matches (pat s : List Char) : List Char :=
  stripLeadingFuel pat (s.length + 1) s

/-! ## JSON values (`serde_json::Value`) -/

/-- `serde_json::Value`.  Numbers are modelled as exact rationals; every
number the claims exercise is a small integer, on which `as_f64` and f64
arithmetic are exact. -/
inductive Json where
  | null
  | bool (b : Bool)
  | num (q : ℚ)
  | str (s : String)
  | arr (elems : List Json)
  | obj (fields : List (String × Json))

/-- `value[key]` for a string key: field lookup on objects, `Null` when the
value is not an object or the key is absent. -/
def Json.index (j : Json) (key : String) : Json :=
  match j with
  | .obj fields =>
    match fields.find? (fun kv => kv.1 == key) with
    | some kv => kv.2
    | none => .null
  | _ => .null

/-- `Value::as_f64`: numbers convert, everything else is `None`. -/
def Json.as_f64 : Json → Option ℚ
  | .num q => some q
  | _ => none

/-- `Value::as_str`. -/
def Json.as_str : Json → Option String
  | .str s => some s
  | _ => none

/-! ## mux LLM interface (collaborator contract consumed by the runner) -/

/-- `mux::llm::Role` (the two roles the runner constructs). -/
inductive Role where
  | user
  | assistant

/-- `mux::llm::ContentBlock` (the variants the runner constructs or reads). -/
inductive ContentBlock where
  | text (text : String)
  | toolUse (id : String) (name : String) (input : Json)

/-- `mux::llm::Message`. -/
structure Message where
  role : Role
  content : List ContentBlock

/-- `mux::llm::Request` (the fields the runner sets; the remaining fields
come from `Default::default()` and are never read by the runner). -/
structure Request where
  model : String
  messages : List Message
  maxTokens : Option Nat

/-- `mux::llm::Response` (the field the runner reads). -/
structure Response where
  content : List ContentBlock

/-- Concatenate the text blocks of a content list: the runner expression
`content.iter().filter_map(Text).collect::<Vec<_>>().join("")`. -/
def joinTexts (blocks : List ContentBlock) : String :=
  String.join (blocks.filterMap fun b =>
    match b with
    | .text t => some t
    | _ => none)

/-! ## The Judge -/

/-- `struct Judge`: an LLM client plus a model identifier.  The client is
modelled as a function from the request to the call outcome. -/
structure Judge where
  client : Request → Except String Response
  model : String

/-- The `format!` prompt template of `Judge::evaluate`. -/
def judgePrompt (task agentOutput criteria : String) : String :=
  "You are an eval judge. Evaluate if the agent completed the task correctly.\n\nTASK: "
    ++ task
    ++ "\n\nAGENT OUTPUT:\n"
    ++ agentOutput
    ++ "\n\nEVALUATION CRITERIA: "
    ++ criteria
    ++ "\n\nRespond with EXACTLY this format (no markdown, no extra text):\nVERDICT: PASS or FAIL\nREASON: One sentence explanation\n\nExample:\nVERDICT: PASS\nREASON: The agent correctly completed the requested task."

/-- The request literal built inside `Judge::evaluate`. -/
def judgeRequest (j : Judge) (task agentOutput criteria : String) : Request :=
  { model := j.model
    messages := [{ role := Role.user
                   content := [ContentBlock.text (judgePrompt task agentOutput criteria)] }]
    maxTokens := some 200 }

/-- The characters of the verdict marker `"VERDICT: PASS"`. -/
def vPat : List Char := "VERDICT: PASS".data

/-- The characters of the reason marker `"REASON:"`. -/
def reasonPat : List Char := "REASON:".data

/-- The reason extracted from one matching line:
`l.trim_start_matches("REASON:").trim().to_string()`. -/
def reasonFromLine (l : List Char) : String :=
  String.mk (rustTrim (trim_start_matches reasonPat l))

/-- The response-parsing tail of `Judge::evaluate` (main.rs lines 115-120):
`passed` from substring containment, `reason` from the first line starting
with `REASON:`, with the fixed fallback string. -/
def judge_parse (text : String) : Bool × String :=
  let passed := occursIn vPat text.data
  let reason :=
    match (rustLines text.data).find? (fun l => leadsWith reasonPat l) with
    | some l => reasonFromLine l
    | none => "No reason provided"
  (passed, reason)

/-- `Judge::evaluate`: issue the client call on the constructed request; a
client error propagates, a successful response is parsed with
`judge_parse` and always yields `Ok`. -/
def Judge.evaluate (j : Judge) (task agentOutput criteria : String) :
    Except String (Bool × String) :=
  match j.client (judgeRequest j task agentOutput criteria) with
  | Except.error e => Except.error e
  | Except.ok response => Except.ok (judge_parse (joinTexts response.content))

/-- `create_judge`: a Judge is created only when `OPENAI_API_KEY` is set,
with the hardcoded model string `"gpt-5-mini"`.  `OpenAIClient::new` is
modelled by the first argument (api key to client function). -/
def create_judge (mkOpenAIClient : String → Request → Except String Response)
    (env : String → Option String) : Option Judge :=
  match env "OPENAI_API_KEY" with
  | none => none
  | some apiKey => some { client := mkOpenAIClient apiKey, model := "gpt-5-mini" }

/-! ## CLI arguments -/

/-- `struct Args` (clap-parsed CLI surface). -/
structure Args where
  evals : String
  category : Option String
  id : Option String
  verbose : Bool
  failuresOnly : Bool
  judgeModel : String

/-- The clap `default_value` of the `--judge-model` flag. -/
def judgeModelDefault : String := "gpt-5-mini"

/-! ## Eval records and outcomes -/

/-- `struct Eval`: one line-delimited eval record. -/
structure Eval where
  id : String
  name : String
  description : String
  category : String
  provider : Option String
  requires_key : Option String
  given : Json
  when_ : Json
  then_ : Json

/-- `enum EvalResult`. -/
inductive EvalResult where
  | Pass
  | Fail (reason : String)
  | Skip (reason : String)
deriving DecidableEq

/-- Is the outcome a `Fail`? -/
def isFail : EvalResult → Bool
  | EvalResult.Fail _ => true
  | _ => false

/-- Is the outcome a `Skip`? -/
def isSkip : EvalResult → Bool
  | EvalResult.Skip _ => true
  | _ => false

/-! ## Capability gate and category dispatch (`run_eval`) -/

/-- The seven category handlers of `run_eval`, abstracted as state
transformers: the real handlers perform IO and network calls, so a handler
is modelled as a function from the eval and the outside-world state to an
outcome and a possibly changed state. -/
structure Handlers (σ : Type) where
  tools : Eval → σ → EvalResult × σ
  hooks : Eval → σ → EvalResult × σ
  agent : Eval → σ → EvalResult × σ
  subagent : Eval → σ → EvalResult × σ
  transcript : Eval → σ → EvalResult × σ
  mcp : Eval → σ → EvalResult × σ
  llm : Eval → σ → EvalResult × σ

/-- The category match at the end of `run_eval`. -/
def dispatch_category {σ : Type} (h : Handlers σ) (e : Eval) (s : σ) :
    EvalResult × σ :=
  match e.category with
  | "tools" => h.tools e s
  | "hooks" => h.hooks e s
  | "agent" => h.agent e s
  | "subagent" => h.subagent e s
  | "transcript" => h.transcript e s
  | "mcp" => h.mcp e s
  | "llm" => h.llm e s
  | _ => (EvalResult.Skip ("Unknown category: " ++ e.category), s)

/-- `run_eval`: the `requires_key` capability gate runs first; when the named
environment variable is unset the eval is skipped before any dispatch.
`std::env::var` is modelled by `env`; `Err` is `none`. -/
def run_eval {σ : Type} (env : String → Option String) (h : Handlers σ)
    (e : Eval) (s : σ) : EvalResult × σ :=
  match e.requires_key with
  | some key =>
    match env key with
    | none => (EvalResult.Skip (key ++ " not set"), s)
    | some _ => dispatch_category h e s
  | none => dispatch_category h e s

/-! ## Eval loading (`load_evals`) -/

/-- The blank-line test `line.trim().is_empty()`. -/
def blankLine (l : String) : Bool := (rustTrim l.data).isEmpty

/-- The load error of `load_evals`, carrying the data embedded in the
`anyhow` context message `"Failed to parse line {line_num + 1} in {file}"`:
the source file and the 1-based line number. -/
inductive LoadErr where
  | parseErr (file : String) (line : Nat)
deriving DecidableEq

/-- The retention test of `load_evals`: a record survives the two `continue`
filters iff the category filter is absent or equal to its category and the
id filter is absent or equal to its id. -/
def keepEval (categoryFilter idFilter : Option String) (e : Eval) : Bool :=
  (match categoryFilter with
   | some cat => e.category == cat
   | none => true)
  && (match idFilter with
      | some i => e.id == i
      | none => true)

/-- The per-file line loop of `load_evals`.  `idx` is the 0-based `enumerate`
counter; blank lines are skipped but still counted; a parse failure aborts
with the 1-based line number; parsed records pass through the filters in
order.  `serde_json::from_str::<Eval>` is modelled by `parseEval`. -/
def load_file_lines (parseEval : String → Option Eval)
    (categoryFilter idFilter : Option String) (file : String) :
    Nat → List String → Except LoadErr (List Eval)
  | _, [] => Except.ok []
  | idx, line :: rest =>
    if blankLine line then
      load_file_lines parseEval categoryFilter idFilter file (idx + 1) rest
    else
      match parseEval line with
      | none => Except.error (LoadErr.parseErr file (idx + 1))
      | some e =>
        match load_file_lines parseEval categoryFilter idFilter file (idx + 1) rest with
        | Except.error err => Except.error err
        | Except.ok evs =>
          Except.ok (if keepEval categoryFilter idFilter e then e :: evs else evs)

/-- `load_evals` over an already selected list of files, each given with its
line contents: files are processed in order, the first failure aborts the
whole load. -/
def load_evals (parseEval : String → Option Eval)
    (categoryFilter idFilter : Option String) :
    List (String × List String) → Except LoadErr (List Eval)
  | [] => Except.ok []
  | (file, lines) :: rest =>
    match load_file_lines parseEval categoryFilter idFilter file 0 lines with
    | Except.error err => Except.error err
    | Except.ok evs =>
      match load_evals parseEval categoryFilter idFilter rest with
      | Except.error err => Except.error err
      | Except.ok more => Except.ok (evs ++ more)

/-- The successfully parsed records of a list of lines: blank lines are
dropped, every other line contributes its parse when it has one. -/
def valid_records (parseEval : String → Option Eval) (lines : List String) :
    List Eval :=
  lines.filterMap fun l => if blankLine l then none else parseEval l

/-- The final path component (after the last slash). -/
def lastComponent (p : List Char) : List Char :=
  match (splitOnChar '/' p).getLast? with
  | some c => c
  | none => []

/-- `Path::extension()` on the model: the part of the final component after
its last dot; `none` when there is no dot or when the part before the last
dot is empty (a leading-dot file has no extension). -/
def fileExt (p : List Char) : Option String :=
  let name := lastComponent p
  let pieces := splitOnChar '.' name
  match pieces with
  | [] => none
  | [_] => none
  | _ =>
    if pieces.dropLast = [[]] then none
    else some (String.mk (pieces.getLast?.getD []))

/-- The file-selection head of `load_evals` (main.rs lines 236-244).  When
the path is a directory, read its entries, silently drop entries whose read
errored (`filter_map(|e| e.ok())`), and keep only `jsonl` extensions;
otherwise use the single path itself. -/
def selectFiles (isDir : Bool) (path : String)
    (entries : List (Except String String)) : List String :=
  if isDir then
    (entries.filterMap fun ent =>
      match ent with
      | Except.ok p => some p
      | Except.error _ => none).filter
      (fun p => fileExt p.data == some "jsonl")
  else [path]

/-- The whole of `load_evals`: select the files from the path, read each one,
then run the line loop over the selected files in order. -/
def load_evals_full (parseEval : String → Option Eval)
    (readF : String → List String) (isDir : Bool) (path : String)
    (entries : List (Except String String))
    (categoryFilter idFilter : Option String) : Except LoadErr (List Eval) :=
  load_evals parseEval categoryFilter idFilter
    ((selectFiles isDir path entries).map fun p => (p, readF p))

/-! ## Example tools and the tools handler -/

/-- `mux::tool::ToolResult` (the field the runner reads). -/
structure ToolResult where
  content : String
deriving DecidableEq

/-- `ToolResult::text`. -/
def ToolResult.text (s : String) : ToolResult := { content := s }

/-- One registered tool: the mux `Tool` capability the runner consumes
(name, description, fallible execute). -/
structure ToolImpl where
  name : String
  description : String
  execute : Json → Except String ToolResult

/-- Rust `format!("{}", x)` on an f64, modelled on rationals.  Rust prints an
integral double without a decimal point, which the `den = 1` branch renders
exactly; the non-integral branch is a placeholder rendering that no claim
and no eval fixture ever reaches (every tool invocation in the fixtures has
an integral result or errors first). -/
def fmtF64 (q : ℚ) : String :=
  if q.den = 1 then toString q.num
  else toString q.num ++ "/" ++ toString q.den

/-- `AddTool`: both operands default to `0.0` when missing or non-numeric;
the textual sum is always returned, never an error. -/
def AddTool : ToolImpl :=
  { name := "add"
    description := "Adds two numbers"
    execute := fun params =>
      let a := ((params.index "a").as_f64).getD 0
      let b := ((params.index "b").as_f64).getD 0
      Except.ok (ToolResult.text (fmtF64 (a + b))) }

/-- `DivideTool`: same defaulting as `AddTool`; a zero divisor is an error
before any division happens. -/
def DivideTool : ToolImpl :=
  { name := "divide"
    description := "Divides two numbers"
    execute := fun params =>
      let a := ((params.index "a").as_f64).getD 0
      let b := ((params.index "b").as_f64).getD 0
      if b = 0 then Except.error "Division by zero"
      else Except.ok (ToolResult.text (fmtF64 (a / b))) }

/-- `GreetTool`. -/
def GreetTool : ToolImpl :=
  { name := "greet"
    description := "Returns greeting"
    execute := fun params =>
      let n := ((params.index "name").as_str).getD "World"
      Except.ok (ToolResult.text ("Hello, " ++ n ++ "!")) }

/-- `GetInfoTool`: returns the serde rendering of the fixed info object. -/
def GetInfoTool : ToolImpl :=
  { name := "get_info"
    description := "Returns info object"
    execute := fun _ =>
      Except.ok (ToolResult.text "\x7b\"name\":\"mux\",\"version\":\"1.0\"\x7d") }

/-- The four tools `run_tool_eval` registers, in registration order. -/
def registered_tools : List ToolImpl :=
  [AddTool, DivideTool, GreetTool, GetInfoTool]

/-- `Registry::get` on the fixed registry of `run_tool_eval`: lookup by tool
name. -/
def registry_get (name : String) : Option ToolImpl :=
  registered_tools.find? fun t => t.name == name

/-- The ASCII apostrophe, used inside some failure messages of the source. -/
def squote : String := String.mk [Char.ofNat 39]

/-- `run_tool_eval`: the per-id fixture table of the tools category.
`serde_json::from_str::<Value>(s).is_ok()` (used only by tool-005) is
modelled by `jsonParseOk`.  The `none` branches of the ids that `unwrap`
the registry lookup are unreachable for the fixed registry. -/
def run_tool_eval (jsonParseOk : String → Bool) (e : Eval) : EvalResult :=
  match e.id with
  | "tool-001" =>
    match registry_get "add" with
    | none => EvalResult.Fail ("Tool " ++ squote ++ "add" ++ squote ++ " not found")
    | some tool =>
      match tool.execute (Json.obj [("a", Json.num 2), ("b", Json.num 3)]) with
      | Except.ok r =>
        if occursIn "5".data r.content.data then EvalResult.Pass
        else EvalResult.Fail ("Expected " ++ squote ++ "5" ++ squote ++ ", got: " ++ r.content)
      | Except.error err => EvalResult.Fail ("Execution failed: " ++ err)
  | "tool-002" =>
    match registry_get "nonexistent" with
    | none => EvalResult.Pass
    | some _ => EvalResult.Fail "Expected None for nonexistent tool"
  | "tool-003" =>
    match registry_get "divide" with
    | none => EvalResult.Fail "unreachable: unwrap of a missing tool"
    | some tool =>
      match tool.execute (Json.obj [("a", Json.num 10), ("b", Json.num 0)]) with
      | Except.error _ => EvalResult.Pass
      | Except.ok _ => EvalResult.Fail "Expected error for division by zero"
  | "tool-004" =>
    match registry_get "greet" with
    | none => EvalResult.Fail "unreachable: unwrap of a missing tool"
    | some tool =>
      match tool.execute (Json.obj [("name", Json.str "World")]) with
      | Except.ok r =>
        if occursIn "World".data r.content.data then EvalResult.Pass
        else EvalResult.Fail
          ("Expected " ++ squote ++ "World" ++ squote ++ " in result, got: " ++ r.content)
      | Except.error err => EvalResult.Fail ("Execution failed: " ++ err)
  | "tool-005" =>
    match registry_get "get_info" with
    | none => EvalResult.Fail "unreachable: unwrap of a missing tool"
    | some tool =>
      match tool.execute (Json.obj []) with
      | Except.ok r =>
        if jsonParseOk r.content then EvalResult.Pass
        else EvalResult.Fail ("Result is not valid JSON: " ++ r.content)
      | Except.error err => EvalResult.Fail ("Execution failed: " ++ err)
  | _ => EvalResult.Skip ("Unknown tool eval: " ++ e.id)

/-- A minimal tools-category eval record carrying only the id, which is all
`run_tool_eval` reads. -/
def mkToolEval (id : String) : Eval :=
  { id := id, name := "", description := "", category := "tools"
    provider := none, requires_key := none
    given := Json.null, when_ := Json.null, then_ := Json.null }

/-! ## Result aggregation and the process exit status -/

/-- One step of the counting loop in `main`: exactly one of the three
counters (passed, failed, skipped) is incremented per outcome. -/
def tally_step (acc : Nat × Nat × Nat) (r : EvalResult) : Nat × Nat × Nat :=
  match r with
  | EvalResult.Pass => (acc.1 + 1, acc.2.1, acc.2.2)
  | EvalResult.Fail _ => (acc.1, acc.2.1 + 1, acc.2.2)
  | EvalResult.Skip _ => (acc.1, acc.2.1, acc.2.2 + 1)

/-- The counting loop of `main` over the outcomes in execution order. -/
def tally (results : List EvalResult) : Nat × Nat × Nat :=
  results.foldl tally_step (0, 0, 0)

/-- The process exit status chosen at the end of `main`:
`std::process::exit(1)` when the failed counter is positive, otherwise the
implicit status 0 of `Ok(())`. -/
def process_exit (results : List EvalResult) : Nat :=
  if (tally results).2.1 > 0 then 1 else 0

/-! ## Spec-side definitions used to state claims -/

/-- Modelled from the spec: the exact two-line VERDICT/REASON response
grammar of section 4.4 (`VERDICT: PASS or FAIL` then `REASON: <one
sentence>`), used to state what a malformed judge response is. -/
def followsJudgeGrammar (text : String) : Bool :=
  match rustLines text.data with
  | [v, r] =>
    (v == "VERDICT: PASS".data || v == "VERDICT: FAIL".data) && leadsWith reasonPat r
  | _ => false

/-- A concrete environment with only `OPENAI_API_KEY` set, for exercising
`create_judge`. -/
def envWithOpenAIKey : String → Option String :=
  fun k => if k == "OPENAI_API_KEY" then some "test-key" else none

/-- A stub LLM-client factory whose calls always fail; `create_judge` only
stores the client, so the stub never runs in the theorems that use it. -/
def offlineClient : String → Request → Except String Response :=
  fun _ _ => Except.error "offline"

/-- A judge whose client answers every request with the single text block
`VERDICT: PASS` (a malformed response under the two-line grammar). -/
def judgeStubPass : Judge :=
  { client := fun _ => Except.ok { content := [ContentBlock.text "VERDICT: PASS"] }
    model := "gpt-5-mini" }

/-- A judge whose client answers every request with a text block that
contains neither marker. -/
def judgeStubGibberish : Judge :=
  { client := fun _ => Except.ok { content := [ContentBlock.text "gibberish"] }
    model := "gpt-5-mini" }

/-- An environment with no variable set. -/
def envEmpty : String → Option String := fun _ => none

/-- Handlers over a `Nat` counter state that record every invocation by
incrementing the counter; used to witness that the capability gate leaves
handler state untouched. -/
def bumpHandlers : Handlers Nat :=
  { tools := fun _ s => (EvalResult.Pass, s + 1)
    hooks := fun _ s => (EvalResult.Pass, s + 1)
    agent := fun _ s => (EvalResult.Pass, s + 1)
    subagent := fun _ s => (EvalResult.Pass, s + 1)
    transcript := fun _ s => (EvalResult.Pass, s + 1)
    mcp := fun _ s => (EvalResult.Pass, s + 1)
    llm := fun _ s => (EvalResult.Pass, s + 1) }

/-- Handlers that never touch the state and skip everything. -/
def idleHandlers : Handlers Nat :=
  { tools := fun _ s => (EvalResult.Skip "idle", s)
    hooks := fun _ s => (EvalResult.Skip "idle", s)
    agent := fun _ s => (EvalResult.Skip "idle", s)
    subagent := fun _ s => (EvalResult.Skip "idle", s)
    transcript := fun _ s => (EvalResult.Skip "idle", s)
    mcp := fun _ s => (EvalResult.Skip "idle", s)
    llm := fun _ s => (EvalResult.Skip "idle", s) }

/-- A tools eval gated on `OPENAI_API_KEY`. -/
def gatedEval : Eval :=
  { id := "tool-001", name := "", description := "", category := "tools"
    provider := none, requires_key := some "OPENAI_API_KEY"
    given := Json.null, when_ := Json.null, then_ := Json.null }

/-- A stub record parser for concrete loading scenarios: the line `good`
parses, every other non-blank line fails. -/
def parseStub : String → Option Eval :=
  fun l => if l == "good" then some (mkToolEval "tool-001") else none

/-! ## Helper lemmas -/

theorem leadsWith_iff (pat : List Char) :
    ∀ s : List Char, leadsWith pat s = true ↔ ∃ post, s = pat ++ post := by
  induction pat with
  | nil =>
    intro s
    simp [leadsWith]
  | cons p ps ih =>
    intro s
    cases s with
    | nil =>
      simp [leadsWith]
    | cons c cs =>
      simp only [leadsWith, Bool.and_eq_true, beq_iff_eq, ih cs, List.cons_append,
        List.cons.injEq]
      constructor
      · rintro ⟨rfl, post, rfl⟩
        exact ⟨post, rfl, rfl⟩
      · rintro ⟨post, rfl, rfl⟩
        exact ⟨rfl, post, rfl⟩

theorem occursIn_iff (pat : List Char) :
    ∀ s : List Char, occursIn pat s = true ↔ ∃ pre post, s = pre ++ pat ++ post := by
  intro s
  induction s with
  | nil =>
    simp only [occursIn, List.isEmpty_iff]
    constructor
    · rintro rfl
      exact ⟨[], [], rfl⟩
    · rintro ⟨pre, post, h⟩
      rcases List.append_eq_nil.mp h.symm with ⟨h1, h2⟩
      rcases List.append_eq_nil.mp h1 with ⟨-, h3⟩
      exact h3
  | cons c cs ih =>
    simp only [occursIn, Bool.or_eq_true, leadsWith_iff, ih]
    constructor
    · rintro (⟨post, h⟩ | ⟨pre, post, h⟩)
      · exact ⟨[], post, by simpa using h⟩
      · exact ⟨c :: pre, post, by simp [h]⟩
    · rintro ⟨pre, post, h⟩
      cases pre with
      | nil =>
        exact Or.inl ⟨post, by simpa using h⟩
      | cons p pre =>
        rcases List.cons.injEq .. ▸ h with ⟨-, h2⟩
        exact Or.inr ⟨pre, post, by simpa using h2⟩

theorem find?_first {α : Type} (p : α → Bool) :
    ∀ (pre : List α) (x : α) (post : List α),
      (∀ y ∈ pre, p y = false) → p x = true →
      List.find? p (pre ++ x :: post) = some x := by
  intro pre x post hpre hx
  induction pre with
  | nil =>
    simpa using List.find?_cons_of_pos post hx
  | cons a pre ih =>
    have ha : ¬p a = true := by
      simp [hpre a (by simp)]
    rw [List.cons_append, List.find?_cons_of_neg _ ha]
    exact ih fun y hy => hpre y (by simp [hy])

theorem load_file_lines_ok (parseEval : String → Option Eval)
    (cF iF : Option String) (file : String) :
    ∀ (lines : List String) (idx : Nat),
      (∀ l ∈ lines, blankLine l = true ∨ (parseEval l).isSome = true) →
      load_file_lines parseEval cF iF file idx lines
        = Except.ok ((valid_records parseEval lines).filter (keepEval cF iF)) := by
  intro lines
  induction lines with
  | nil => intro idx _; simp [load_file_lines, valid_records]
  | cons line rest ih =>
    intro idx h
    cases hb : blankLine line with
    | true =>
      rw [load_file_lines, if_pos hb, ih (idx + 1) fun l hl => h l (by simp [hl])]
      simp [valid_records, List.filterMap_cons, hb]
    | false =>
      have hp : (parseEval line).isSome = true := by
        rcases h line (by simp) with hbl | hp
        · rw [hb] at hbl
          exact absurd hbl (by simp)
        · exact hp
      rcases Option.isSome_iff_exists.mp hp with ⟨e, he⟩
      rw [load_file_lines, if_neg (by simp [hb]), he,
        ih (idx + 1) fun l hl => h l (by simp [hl])]
      simp [valid_records, List.filterMap_cons, hb, he, List.filter_cons]

theorem load_evals_ok (parseEval : String → Option Eval) (cF iF : Option String) :
    ∀ files : List (String × List String),
      (∀ fl ∈ files, ∀ l ∈ fl.2, blankLine l = true ∨ (parseEval l).isSome = true) →
      load_evals parseEval cF iF files
        = Except.ok
            (((files.map fun fl => valid_records parseEval fl.2).flatten).filter
              (keepEval cF iF)) := by
  intro files
  induction files with
  | nil => intro _; simp [load_evals]
  | cons fl rest ih =>
    intro h
    obtain ⟨file, lines⟩ := fl
    rw [load_evals,
      load_file_lines_ok parseEval cF iF file lines 0
        (fun l hl => h (file, lines) (by simp) l hl),
      ih fun fl hfl l hl => h fl (by simp [hfl]) l hl]
    simp [List.filter_append]

theorem load_file_lines_err (parseEval : String → Option Eval)
    (cF iF : Option String) (file : String) (bad : String) (post : List String)
    (hbad : blankLine bad = false) (hparse : parseEval bad = none) :
    ∀ (pre : List String) (idx : Nat),
      (∀ l ∈ pre, blankLine l = true ∨ (parseEval l).isSome = true) →
      load_file_lines parseEval cF iF file idx (pre ++ bad :: post)
        = Except.error (LoadErr.parseErr file (idx + pre.length + 1)) := by
  intro pre
  induction pre with
  | nil =>
    intro idx _
    simp [load_file_lines, hbad, hparse]
  | cons line rest ih =>
    intro idx h
    cases hb : blankLine line with
    | true =>
      rw [List.cons_append, load_file_lines, if_pos hb,
        ih (idx + 1) fun l hl => h l (by simp [hl])]
      simp only [Except.error.injEq, LoadErr.parseErr.injEq, List.length_cons,
        eq_self_iff_true, true_and]
      omega
    | false =>
      have hp : (parseEval line).isSome = true := by
        rcases h line (by simp) with hbl | hp
        · rw [hb] at hbl
          exact absurd hbl (by simp)
        · exact hp
      rcases Option.isSome_iff_exists.mp hp with ⟨e, he⟩
      rw [List.cons_append, load_file_lines, if_neg (by simp [hb]), he,
        ih (idx + 1) fun l hl => h l (by simp [hl])]
      simp only [Except.error.injEq, LoadErr.parseErr.injEq, List.length_cons,
        eq_self_iff_true, true_and]
      omega

theorem load_evals_err (parseEval : String → Option Eval) (cF iF : Option String)
    (file : String) (pre : List String) (bad : String) (post : List String)
    (postFiles : List (String × List String))
    (hpre : ∀ l ∈ pre, blankLine l = true ∨ (parseEval l).isSome = true)
    (hbad : blankLine bad = false) (hparse : parseEval bad = none) :
    ∀ preFiles : List (String × List String),
      (∀ fl ∈ preFiles, ∀ l ∈ fl.2, blankLine l = true ∨ (parseEval l).isSome = true) →
      load_evals parseEval cF iF (preFiles ++ (file, pre ++ bad :: post) :: postFiles)
        = Except.error (LoadErr.parseErr file (pre.length + 1)) := by
  intro preFiles
  induction preFiles with
  | nil =>
    intro _
    rw [List.nil_append, load_evals,
      load_file_lines_err parseEval cF iF file bad post hbad hparse pre 0 hpre]
    simp
  | cons fl rest ih =>
    intro h
    obtain ⟨f, ls⟩ := fl
    rw [List.cons_append, load_evals,
      load_file_lines_ok parseEval cF iF f ls 0 (fun l hl => h (f, ls) (by simp) l hl),
      ih fun fl hfl l hl => h fl (by simp [hfl]) l hl]

theorem tally_snd :
    ∀ (rs : List EvalResult) (a b c : Nat),
      (List.foldl tally_step (a, b, c) rs).2.1 = b + List.countP isFail rs := by
  intro rs
  induction rs with
  | nil => intro a b c; simp
  | cons r rest ih =>
    intro a b c
    cases r <;> (simp [tally_step, List.countP_cons, ih, isFail]; try omega)

theorem isFail_eval : isFail EvalResult.Pass = false ∧
    (∀ m, isFail (EvalResult.Fail m) = true) ∧
    (∀ m, isFail (EvalResult.Skip m) = false) :=
  ⟨rfl, fun _ => rfl, fun _ => rfl⟩

theorem isSkip_eval : isSkip EvalResult.Pass = false ∧
    (∀ m, isSkip (EvalResult.Fail m) = false) ∧
    (∀ m, isSkip (EvalResult.Skip m) = true) :=
  ⟨rfl, fun _ => rfl, fun _ => rfl⟩

theorem countFail_filter_not_skip :
    ∀ rs : List EvalResult,
      List.countP isFail (rs.filter fun r => !isSkip r) = List.countP isFail rs := by
  intro rs
  induction rs with
  | nil => rfl
  | cons r rest ih =>
    cases r with
    | Pass =>
      simp only [List.filter_cons, isSkip_eval.1, Bool.not_false, if_true,
        List.countP_cons, isFail_eval.1, ih]
    | Fail m =>
      simp only [List.filter_cons, isSkip_eval.2.1 m, Bool.not_false, if_true,
        List.countP_cons, isFail_eval.2.1 m, ih]
    | Skip m =>
      simp only [List.filter_cons, isSkip_eval.2.2 m, Bool.not_true, if_false,
        List.countP_cons, isFail_eval.2.2 m, ih]
      exact ih

theorem judge_parse_degrade (text : String)
    (h1 : occursIn vPat text.data = false)
    (h2 : ∀ l ∈ rustLines text.data, leadsWith reasonPat l = false) :
    judge_parse text = (false, "No reason provided") := by
  have hfind : (rustLines text.data).find? (fun l => leadsWith reasonPat l) = none :=
    List.find?_eq_none.mpr fun x hx => by simp [h2 x hx]
  simp only [judge_parse, hfind, h1]

/-! ## Claim theorems -/

/-- C1: for every raw judge response text, `Judge::evaluate` parses it so
that `passed` is true iff the text contains the substring `VERDICT: PASS`
anywhere (not line-anchored), and `reason` is the first line beginning with
`REASON:` with that prefix and surrounding whitespace removed, with the
literal fallback `No reason provided` when no such line exists; in
particular `VERDICT: PASS\nREASON: Correct.` parses to
`(true, "Correct.")`. -/
theorem C1_judge_response_parsing :
    (∀ text : String,
      (judge_parse text).1 = true ↔
        ∃ pre post, text.data = pre ++ "VERDICT: PASS".data ++ post)
    ∧ (∀ text : String,
        (∀ l ∈ rustLines text.data, leadsWith reasonPat l = false) →
        (judge_parse text).2 = "No reason provided")
    ∧ (∀ (text : String) (pre : List (List Char)) (l : List Char)
         (post : List (List Char)),
        rustLines text.data = pre ++ l :: post →
        (∀ l0 ∈ pre, leadsWith reasonPat l0 = false) →
        leadsWith reasonPat l = true →
        (judge_parse text).2 = reasonFromLine l)
    ∧ judge_parse "VERDICT: PASS\nREASON: Correct." = (true, "Correct.") := by
  refine ⟨?_, ?_, ?_, by decide⟩
  · intro text
    exact occursIn_iff vPat text.data
  · intro text h
    have hfind : (rustLines text.data).find? (fun l => leadsWith reasonPat l) = none :=
      List.find?_eq_none.mpr fun x hx => by simp [h x hx]
    simp only [judge_parse, hfind]
  · intro text pre l post hdecomp hpre hl
    have hfind : (rustLines text.data).find? (fun l => leadsWith reasonPat l) = some l := by
      rw [hdecomp]
      exact find?_first _ pre l post hpre hl
    simp only [judge_parse, hfind]

/-- Witness for C1: a response with no `REASON:` line falls back to the
fixed string, and `REASON:  nope ` is stripped and trimmed to `nope`. -/
theorem C1_judge_response_parsing_witness :
    (judge_parse "hello").2 = "No reason provided"
    ∧ (judge_parse "VERDICT: FAIL\nREASON:  nope ").2 = "nope" :=
  ⟨C1_judge_response_parsing.2.1 "hello" (by decide),
   (C1_judge_response_parsing.2.2.1 "VERDICT: FAIL\nREASON:  nope "
      ["VERDICT: FAIL".data] "REASON:  nope ".data [] (by decide) (by decide)
      (by decide)).trans (by decide)⟩

/-- C2 counterexample: the response `VERDICT: PASS` alone does not follow
the two-line VERDICT/REASON grammar, yet `Judge::evaluate` returns
`Ok (true, "No reason provided")`, not `Ok (false, "No reason provided")`
as the claim states for every malformed response. -/
theorem C2_malformed_counterexample :
    followsJudgeGrammar "VERDICT: PASS" = false
    ∧ Judge.evaluate judgeStubPass "t" "a" "c"
        = Except.ok (true, "No reason provided")
    ∧ ((true, "No reason provided") : Bool × String)
        ≠ (false, "No reason provided") :=
  ⟨by decide, rfl, by decide⟩

/-- C2 (amended): `Judge::evaluate` returns an error iff the underlying LLM
call itself fails, and parsing is total; a judge response containing
neither the substring `VERDICT: PASS` nor any line beginning with
`REASON:` degrades to `Ok` with `passed = false` and
`reason = "No reason provided"`. -/
theorem C2_amended_parse_totality :
    (∀ (j : Judge) (task agentOut crit : String),
      (∃ e, Judge.evaluate j task agentOut crit = Except.error e) ↔
        ∃ e, j.client (judgeRequest j task agentOut crit) = Except.error e)
    ∧ (∀ text : String,
        occursIn vPat text.data = false →
        (∀ l ∈ rustLines text.data, leadsWith reasonPat l = false) →
        judge_parse text = (false, "No reason provided"))
    ∧ (∀ (j : Judge) (task agentOut crit : String) (resp : Response),
        j.client (judgeRequest j task agentOut crit) = Except.ok resp →
        occursIn vPat (joinTexts resp.content).data = false →
        (∀ l ∈ rustLines (joinTexts resp.content).data,
          leadsWith reasonPat l = false) →
        Judge.evaluate j task agentOut crit
          = Except.ok (false, "No reason provided")) := by
  refine ⟨?_, fun text h1 h2 => judge_parse_degrade text h1 h2, ?_⟩
  · intro j task agentOut crit
    simp only [Judge.evaluate]
    cases hres : j.client (judgeRequest j task agentOut crit) with
    | error e => simp
    | ok resp => simp
  · intro j task agentOut crit resp hres h1 h2
    simp only [Judge.evaluate, hres, judge_parse_degrade (joinTexts resp.content) h1 h2]

/-- Witness for C2 (amended): a judge answering `gibberish` degrades to the
deterministic negative verdict with the fixed placeholder reason. -/
theorem C2_amended_parse_totality_witness :
    Judge.evaluate judgeStubGibberish "t" "a" "c"
      = Except.ok (false, "No reason provided") :=
  C2_amended_parse_totality.2.2 judgeStubGibberish "t" "a" "c"
    { content := [ContentBlock.text "gibberish"] } rfl (by decide) (by decide)

/-- C3: the code parses a `--judge-model` flag (default `gpt-5-mini`) that is
documented as the model the Judge uses, but `create_judge` ignores it and
hardcodes `gpt-5-mini`: every request the created Judge issues carries the
model `gpt-5-mini`, which differs from any non-default flag value such as
`claude-sonnet-4`. -/
theorem C3_judge_model_flag_unused :
    ∃ j : Judge,
      create_judge offlineClient envWithOpenAIKey = some j
      ∧ (∀ task agentOut crit, (judgeRequest j task agentOut crit).model = "gpt-5-mini")
      ∧ j.model = judgeModelDefault
      ∧ j.model ≠ ({ evals := "../../evals", category := none, id := none, verbose := false, failuresOnly := false, judgeModel := "claude-sonnet-4" } : Args).judgeModel :=
  ⟨{ client := offlineClient "test-key", model := "gpt-5-mini" },
   rfl, fun _ _ _ => rfl, rfl, by decide⟩

/-- C4: an eval whose `requires_key` names an unset environment variable is
skipped with reason `<key> not set` before any dispatch; the outcome and
the final state are independent of the handlers, and the handler state is
returned untouched, so no handler side effect occurs. -/
theorem C4_requires_key_gate :
    ∀ (σ : Type) (env : String → Option String) (h h2 : Handlers σ) (e : Eval)
      (s : σ) (key : String),
      e.requires_key = some key → env key = none →
      run_eval env h e s = (EvalResult.Skip (key ++ " not set"), s)
      ∧ run_eval env h e s = run_eval env h2 e s := by
  intro σ env h h2 e s key hk henv
  constructor <;> simp only [run_eval, hk, henv]

/-- Witness for C4: a tools eval gated on `OPENAI_API_KEY` under an empty
environment is skipped with untouched counter state, identically for
side-effecting and idle handlers. -/
theorem C4_requires_key_gate_witness :
    run_eval envEmpty bumpHandlers gatedEval 0
      = (EvalResult.Skip "OPENAI_API_KEY not set", 0)
    ∧ run_eval envEmpty bumpHandlers gatedEval 0
      = run_eval envEmpty idleHandlers gatedEval 0 :=
  C4_requires_key_gate Nat envEmpty bumpHandlers idleHandlers gatedEval 0
    "OPENAI_API_KEY" rfl rfl

theorem load_file_lines_isErr (parseEval : String → Option Eval)
    (cF iF : Option String) (file : String) (bad : String)
    (hbad : blankLine bad = false) (hparse : parseEval bad = none) :
    ∀ (lines : List String) (idx : Nat), bad ∈ lines →
      ∃ err, load_file_lines parseEval cF iF file idx lines = Except.error err := by
  intro lines
  induction lines with
  | nil => intro idx hmem; exact absurd hmem (List.not_mem_nil bad)
  | cons l rest ih =>
    intro idx hmem
    cases hbl : blankLine l with
    | true =>
      have hrest : bad ∈ rest := by
        rcases List.mem_cons.mp hmem with rfl | h
        · rw [hbl] at hbad
          exact absurd hbad (by simp)
        · exact h
      rcases ih (idx + 1) hrest with ⟨err, herr⟩
      exact ⟨err, by rw [load_file_lines, if_pos hbl]; exact herr⟩
    | false =>
      cases hp : parseEval l with
      | none =>
        exact ⟨LoadErr.parseErr file (idx + 1), by
          rw [load_file_lines, if_neg (by simp [hbl]), hp]⟩
      | some e =>
        have hrest : bad ∈ rest := by
          rcases List.mem_cons.mp hmem with rfl | h
          · rw [hp] at hparse
            exact absurd hparse (by simp)
          · exact h
        rcases ih (idx + 1) hrest with ⟨err, herr⟩
        exact ⟨err, by rw [load_file_lines, if_neg (by simp [hbl]), hp, herr]⟩

theorem load_evals_isErr (parseEval : String → Option Eval)
    (cF iF : Option String) (file : String) (lines : List String) (bad : String)
    (hmemL : bad ∈ lines) (hbad : blankLine bad = false)
    (hparse : parseEval bad = none) :
    ∀ files : List (String × List String), (file, lines) ∈ files →
      ∃ err, load_evals parseEval cF iF files = Except.error err := by
  intro files
  induction files with
  | nil => intro hmem; exact absurd hmem (List.not_mem_nil _)
  | cons fl rest ih =>
    intro hmem
    obtain ⟨f, ls⟩ := fl
    rcases List.mem_cons.mp hmem with heq | hrest
    · obtain ⟨rfl, rfl⟩ := Prod.mk.injEq .. ▸ heq
      rcases load_file_lines_isErr parseEval cF iF file bad hbad hparse lines 0 hmemL
        with ⟨err, herr⟩
      exact ⟨err, by rw [load_evals, herr]⟩
    · cases hfl : load_file_lines parseEval cF iF f 0 ls with
      | error e => exact ⟨e, by rw [load_evals, hfl]⟩
      | ok evs =>
        rcases ih hrest with ⟨err, herr⟩
        exact ⟨err, by rw [load_evals, hfl, herr]⟩

/-- C5: a non-blank line that fails to parse anywhere in the inputs makes
`load_evals` return a parse error (never a partial collection); when
everything before the failing line loads cleanly, the error carries exactly
that source file and the 1-based line number of the failing line. -/
theorem C5_parse_error_aborts :
    (∀ (parseEval : String → Option Eval) (cF iF : Option String)
       (files : List (String × List String)) (file : String)
       (lines : List String) (bad : String),
       (file, lines) ∈ files → bad ∈ lines →
       blankLine bad = false → parseEval bad = none →
       ∃ err, load_evals parseEval cF iF files = Except.error err)
    ∧ (∀ (parseEval : String → Option Eval) (cF iF : Option String)
        (preFiles : List (String × List String)) (file : String)
        (pre : List String) (bad : String) (post : List String)
        (postFiles : List (String × List String)),
        (∀ fl ∈ preFiles, ∀ l ∈ fl.2, blankLine l = true ∨ (parseEval l).isSome = true) →
        (∀ l ∈ pre, blankLine l = true ∨ (parseEval l).isSome = true) →
        blankLine bad = false → parseEval bad = none →
        load_evals parseEval cF iF (preFiles ++ (file, pre ++ bad :: post) :: postFiles)
          = Except.error (LoadErr.parseErr file (pre.length + 1))
        ∧ ∀ evs : List Eval,
            load_evals parseEval cF iF (preFiles ++ (file, pre ++ bad :: post) :: postFiles)
              ≠ Except.ok evs) := by
  constructor
  · intro parseEval cF iF files file lines bad hmemF hmemL hbad hparse
    exact load_evals_isErr parseEval cF iF file lines bad hmemL hbad hparse files hmemF
  · intro parseEval cF iF preFiles file pre bad post postFiles hfiles hpre hbad hparse
    have h := load_evals_err parseEval cF iF file pre bad post postFiles hpre hbad
      hparse preFiles hfiles
    refine ⟨h, fun evs hok => ?_⟩
    exact Except.noConfusion (h.symm.trans hok)

/-- Witness for C5: with a stub parser, the malformed third line of
`b.jsonl` aborts the whole load with file `b.jsonl` and line 3, although
`a.jsonl` and the rest of `b.jsonl` parse. -/
theorem C5_parse_error_aborts_witness :
    load_evals parseStub none none
        [("a.jsonl", ["good", ""]), ("b.jsonl", ["", "good", "oops", "good"]),
         ("c.jsonl", ["x"])]
      = Except.error (LoadErr.parseErr "b.jsonl" 3) :=
  (C5_parse_error_aborts.2 parseStub none none [("a.jsonl", ["good", ""])]
    "b.jsonl" ["", "good"] "oops" ["good"] [("c.jsonl", ["x"])]
    (by decide) (by decide) (by decide) rfl).1

/-- C6: when every non-blank line parses, `load_evals` returns exactly the
parsed records in file order and within-file line order, retaining a record
iff the category filter is absent or matches and the id filter is absent or
matches (the `keepEval` predicate); with no filters the result is all
parsed records, so N valid lines across the files yield exactly N cases. -/
theorem C6_load_order_and_filters :
    ∀ (parseEval : String → Option Eval) (cF iF : Option String)
      (files : List (String × List String)),
      (∀ fl ∈ files, ∀ l ∈ fl.2, blankLine l = true ∨ (parseEval l).isSome = true) →
      load_evals parseEval cF iF files
        = Except.ok
            (((files.map fun fl => valid_records parseEval fl.2).flatten).filter
              (keepEval cF iF))
      ∧ load_evals parseEval none none files
        = Except.ok ((files.map fun fl => valid_records parseEval fl.2).flatten)
      ∧ ∀ evs : List Eval,
          load_evals parseEval none none files = Except.ok evs →
          evs.length
            = ((files.map fun fl => valid_records parseEval fl.2).map List.length).sum := by
  intro parseEval cF iF files h
  have hplain : load_evals parseEval none none files
      = Except.ok ((files.map fun fl => valid_records parseEval fl.2).flatten) := by
    rw [load_evals_ok parseEval none none files h]
    congr 1
    exact List.filter_eq_self.mpr fun a _ => rfl
  refine ⟨load_evals_ok parseEval cF iF files h, hplain, fun evs hok => ?_⟩
  have hev : (files.map fun fl => valid_records parseEval fl.2).flatten = evs :=
    Except.ok.inj (hplain.symm.trans hok)
  rw [← hev, List.length_flatten]

/-- Witness for C6: three parseable lines across two files (one blank line
among them) load as exactly three records under a matching category filter. -/
theorem C6_load_order_and_filters_witness :
    load_evals parseStub (some "tools") none
        [("a.jsonl", ["good", "", "good"]), ("b.jsonl", ["good"])]
      = Except.ok [mkToolEval "tool-001", mkToolEval "tool-001", mkToolEval "tool-001"] :=
  ((C6_load_order_and_filters parseStub (some "tools") none
      [("a.jsonl", ["good", "", "good"]), ("b.jsonl", ["good"])] (by decide)).1).trans rfl

/-- C7: the process exit status is 0 iff no eval produced a `Fail` outcome
and 1 iff at least one did; removing every `Skip` outcome leaves the exit
status unchanged, so skips never affect it. -/
theorem C7_exit_code :
    ∀ results : List EvalResult,
      (process_exit results = 0 ↔ ∀ r ∈ results, isFail r = false)
      ∧ (process_exit results = 1 ↔ ∃ r ∈ results, isFail r = true)
      ∧ process_exit (results.filter fun r => !isSkip r) = process_exit results := by
  have hsnd : ∀ rs : List EvalResult, (tally rs).2.1 = List.countP isFail rs :=
    fun rs => by simpa using tally_snd rs 0 0 0
  have hpe : ∀ rs : List EvalResult,
      process_exit rs = if 0 < List.countP isFail rs then 1 else 0 := fun rs => by
    unfold process_exit
    rw [hsnd rs]
  intro results
  refine ⟨?_, ?_, ?_⟩
  · rw [hpe]
    by_cases hc : 0 < List.countP isFail results
    · rw [if_pos hc]
      constructor
      · intro h10
        exact absurd h10 (by decide)
      · intro hall
        rcases List.countP_pos_iff.mp hc with ⟨r, hr, hfail⟩
        rw [hall r hr] at hfail
        exact absurd hfail (by decide)
    · rw [if_neg hc]
      have h0 : List.countP isFail results = 0 := by omega
      simp only [eq_self_iff_true, true_iff]
      intro r hr
      have hnf := List.countP_eq_zero.mp h0 r hr
      cases hf : isFail r with
      | false => rfl
      | true => exact absurd hf hnf
  · rw [hpe]
    by_cases hc : 0 < List.countP isFail results
    · rw [if_pos hc]
      simp only [eq_self_iff_true, true_iff]
      exact List.countP_pos_iff.mp hc
    · rw [if_neg hc]
      constructor
      · intro h01
        exact absurd h01 (by decide)
      · intro hex
        exact absurd (List.countP_pos_iff.mpr hex) hc
  · rw [hpe, hpe, countFail_filter_not_skip]

section
attribute [local semireducible] Rat.add

/-- C8: invoking the addition tool with `{a:2, b:3}` succeeds with content
`5` (so the tool-001 eval passes), and invoking the division tool with
`{a:10, b:0}` returns the division-by-zero error rather than any success
value, so the tool-003 eval passes through its error branch only. -/
theorem C8_tool_add_divide :
    ∀ jsonParseOk : String → Bool,
      run_tool_eval jsonParseOk (mkToolEval "tool-001") = EvalResult.Pass
      ∧ run_tool_eval jsonParseOk (mkToolEval "tool-003") = EvalResult.Pass
      ∧ AddTool.execute (Json.obj [("a", Json.num 2), ("b", Json.num 3)])
          = Except.ok (ToolResult.text "5")
      ∧ occursIn "5".data (ToolResult.text "5").content.data = true
      ∧ DivideTool.execute (Json.obj [("a", Json.num 10), ("b", Json.num 0)])
          = Except.error "Division by zero" := by
  intro jsonParseOk
  exact ⟨rfl, rfl, rfl, by decide, rfl⟩

end

/-- C9: `AddTool::execute` is total and never errors: a missing or
non-numeric operand is read as `0.0` and the result is always the rendered
sum of the defaults-applied operands; `DivideTool` applies the same
defaulting, so a missing or non-numeric `b` is reported as the
division-by-zero error. -/
theorem C9_tool_defaulting :
    ∀ params : Json,
      (∃ r, AddTool.execute params = Except.ok r)
      ∧ AddTool.execute params
          = Except.ok (ToolResult.text (fmtF64
              ((((params.index "a").as_f64).getD 0)
                + (((params.index "b").as_f64).getD 0))))
      ∧ ((params.index "a").as_f64 = none →
          AddTool.execute params
            = Except.ok (ToolResult.text (fmtF64
                (0 + (((params.index "b").as_f64).getD 0)))))
      ∧ ((params.index "b").as_f64 = none →
          DivideTool.execute params = Except.error "Division by zero") := by
  intro params
  refine ⟨⟨_, rfl⟩, rfl, ?_, ?_⟩
  · intro ha
    simp only [AddTool, ha, Option.getD_none]
  · intro hb
    simp only [DivideTool, hb, Option.getD_none]
    simp

/-- Witness for C9: with params `{a: "x"}` (a non-numeric, b absent) the
addition tool still succeeds, with both operands defaulted, and the
division tool reports division by zero. -/
theorem C9_tool_defaulting_witness :
    AddTool.execute (Json.obj [("a", Json.str "x")])
      = Except.ok (ToolResult.text (fmtF64 (0 + 0)))
    ∧ DivideTool.execute (Json.obj [("a", Json.str "x")])
      = Except.error "Division by zero" :=
  ⟨(C9_tool_defaulting (Json.obj [("a", Json.str "x")])).2.2.1 rfl,
   (C9_tool_defaulting (Json.obj [("a", Json.str "x")])).2.2.2 rfl⟩

/-- C10: when the path is not a directory, the single path itself is read
whatever its extension; when it is a directory, exactly the readable
entries with extension `jsonl` are kept, and entries whose directory read
errored are silently dropped, not reported. -/
theorem C10_path_selection :
    (∀ (path : String) (entries : List (Except String String)),
      selectFiles false path entries = [path])
    ∧ (∀ (path msg : String) (entries : List (Except String String)),
        selectFiles true path (Except.error msg :: entries)
          = selectFiles true path entries)
    ∧ (∀ (path : String) (entries : List (Except String String)) (p : String),
        p ∈ selectFiles true path entries ↔
          Except.ok p ∈ entries ∧ fileExt p.data = some "jsonl")
    ∧ (∀ (parseEval : String → Option Eval) (readF : String → List String)
         (path : String) (entries : List (Except String String))
         (cF iF : Option String),
        load_evals_full parseEval readF false path entries cF iF
          = load_evals parseEval cF iF [(path, readF path)]) := by
  refine ⟨fun _ _ => rfl, ?_, ?_, fun _ _ _ _ _ _ => rfl⟩
  · intro path msg entries
    simp [selectFiles, List.filterMap_cons]
  · intro path entries p
    simp only [selectFiles, if_true, List.mem_filter, List.mem_filterMap]
    constructor
    · rintro ⟨⟨a, ha, hm⟩, hext⟩
      cases a with
      | ok q =>
        have hq : q = p := by simpa using hm
        subst hq
        exact ⟨ha, by simpa using hext⟩
      | error m => exact absurd hm (by simp)
    · rintro ⟨hmem, hext⟩
      exact ⟨⟨Except.ok p, hmem, rfl⟩, by simp [hext]⟩
